import Mathlib

/-!
Verification development for the telegram-tag-all-bot repository (src/main.py).

The Python source is a small event-driven bot with three parts:
a flat-file member store (load_members / save_members, JSON persistence),
a membership tracker (track_members) and a mention responder (tag_all).
This file gives a shallow embedding of those functions and proves the
stated properties about them.

Modelling conventions:
- Python dicts are embedded as insertion-ordered association lists;
  dict assignment updates the first matching key in place and appends
  otherwise, exactly as CPython preserves insertion order.
- The persisted file is modelled at the JSON-value level: an `Option Json`
  (`none` is an absent file).  `json.dump` followed by `json.load` is the
  identity on JSON values of this schema, so the handlers are stated over
  the decoded registry (`FileState := Option Registry`), with the
  value-level round trip proved separately.
- Outbound platform effects (replies, the administrator query, sleeps,
  log lines) are recorded as an explicit action trace.  `TelegramError`
  is modelled by an oracle `failAt : Nat → Bool` that says whether the
  k-th outbound platform call of the handler raises.
- Python string truthiness is nonemptiness; `str.lower` is embedded as
  ASCII lowercasing (Telegram handles are ASCII); substring `in` is
  list-infix on the character data.
-/

namespace TagBot

/-- JSON values, as produced by Python json.dump / json.load. -/
inductive Json : Type where
  | null : Json
  | bool : Bool → Json
  | num : Int → Json
  | str : String → Json
  | arr : List Json → Json
  | obj : List (String × Json) → Json

/-- Registry of members: chat-id string to ordered list of usernames.
Embeds the Python dict held in members.json. -/
abbrev Registry := List (String × List String)

/-- Contents of members.json: absent, or a JSON document. -/
abbrev JsonFile := Option Json

/-- Encoding of a registry as the JSON document json.dump writes. -/
def encodeRegistry (members : Registry) : Json :=
  Json.obj (members.map (fun p => (p.1, Json.arr (p.2.map Json.str))))

/-- Reading a JSON array back as a list of usernames. -/
def decodeStrList : List Json → Option (List String)
  | [] => some []
  | Json.str s :: rest => (decodeStrList rest).map (fun l => s :: l)
  | _ => none

/-- Reading JSON object fields back as registry entries. -/
def decodeFields : List (String × Json) → Option Registry
  | [] => some []
  | (k, Json.arr es) :: rest =>
    match decodeStrList es, decodeFields rest with
    | some us, some r => some ((k, us) :: r)
    | _, _ => none
  | _ => none

/-- Reading a JSON document back as a registry. -/
def decodeRegistry : Json → Option Registry
  | Json.obj fields => decodeFields fields
  | _ => none

/-- Embeds save_members (src/main.py lines 27-30): the file is rewritten
with the JSON serialization of the registry. -/
def save_members (members : Registry) : JsonFile :=
  some (encodeRegistry members)

/-- Embeds load_members (src/main.py lines 19-25): the parsed file
contents, or the empty object when the file does not exist. -/
def load_members (file : JsonFile) : Json :=
  file.getD (Json.obj [])

/-- Decoded file state used by the handler-level embedding: `none` models
an absent members.json.  Justified by the value-level round trip of
`encodeRegistry` / `decodeRegistry`. -/
abbrev FileState := Option Registry

/-- Registry seen by a handler after load_members: empty if the file is
absent. -/
def loadReg (fs : FileState) : Registry := fs.getD []

/-- Telegram chat object (the fields src/main.py reads). -/
structure Chat where
  type : String
  id : Int
deriving DecidableEq

/-- Telegram user object (the fields src/main.py reads).  The username is
optional, as in the platform API. -/
structure User where
  username : Option String
  is_bot : Bool
deriving DecidableEq

/-- Python truthiness of an optional string: present and nonempty. -/
def pyTruthy : Option String → Bool
  | none => false
  | some s => s != ""

/-- File-system effects a handler performs on members.json. -/
inductive FileOp : Type where
  | read : FileOp
  | write : FileOp
deriving DecidableEq

/-- Python dict assignment members[k] = v on an association list: replace
the value at the first occurrence of k, else append at the end. -/
def setKey : Registry → String → List String → Registry
  | [], k, v => [(k, v)]
  | (k₀, v₀) :: rest, k, v =>
    if k₀ == k then (k, v) :: rest else (k₀, v₀) :: setKey rest k v

/-- Embeds track_members (src/main.py lines 36-51).  Returns the new file
state together with the file operations performed. -/
def track_members (chat : Chat) (user : User) (fs : FileState) :
    FileState × List FileOp :=
  if (chat.type == "group" || chat.type == "supergroup")
      && pyTruthy user.username && !user.is_bot then
    let members := loadReg fs
    let chat_id := toString chat.id
    let members1 :=
      if (members.lookup chat_id).isSome then members
      else members ++ [(chat_id, ([] : List String))]
    let u := user.username.getD ""
    let cur := (members1.lookup chat_id).getD []
    if cur.contains u then (fs, [FileOp.read])
    else (some (setKey members1 chat_id (cur ++ [u])), [FileOp.read, FileOp.write])
  else (fs, [])

/-- Folding a sequence of tracked messages over the file state. -/
def applyTracks (ops : List (Chat × User)) (fs : FileState) : FileState :=
  ops.foldl (fun s p => (track_members p.1 p.2 s).1) fs

/-- Invariant: no chat's stored list contains a duplicate username. -/
def RegInvariant (fs : FileState) : Prop :=
  ∀ p ∈ loadReg fs, List.Nodup p.2

/-- ASCII lowercasing of one character, embedding Python str.lower for the
ASCII range Telegram handles live in. -/
def asciiLower (c : Char) : Char :=
  if 'A' ≤ c && c ≤ 'Z' then Char.ofNat (c.toNat + 32) else c

/-- Lowercase a string characterwise. -/
def lowerStr (s : String) : String := String.mk (s.data.map asciiLower)

/-- Embeds the mention test of src/main.py line 61: the lowercased bot
username occurs as a substring of the lowercased message text. -/
def mentionMatch (text bot_username : String) : Bool :=
  decide ((lowerStr bot_username).data <:+: (lowerStr text).data)

/-- Characters Python str.rstrip() removes by default (ASCII whitespace). -/
def pySpace (c : Char) : Bool :=
  c == ' ' || c == '\t' || c == '\n' || c == '\r' || c == '\x0b' || c == '\x0c'

/-- Embeds Python str.rstrip(): drop trailing whitespace. -/
def rstrip (s : String) : String :=
  String.mk (s.data.reverse.dropWhile pySpace).reverse

/-- A string that ends in a non-whitespace character (in particular it is
nonempty). -/
def goodTail (s : String) : Bool :=
  match s.data.getLast? with
  | some c => !pySpace c
  | none => false

/-- Embeds the Python newline join of src/main.py line 81. -/
def joinNl : List String → String
  | [] => ""
  | [a] => a
  | a :: b :: rest => a ++ "\n" ++ joinNl (b :: rest)

/-- Message-length threshold of src/main.py line 84. -/
def max_length : Nat := 4000

/-- Loop body of the greedy chunking at src/main.py lines 87-96:
arguments are the remaining tags, the running chunk and the closed
chunks so far. -/
def buildPartsGo : List String → String → List String → List String
  | [], cur, parts => if cur ≠ "" then parts ++ [rstrip cur] else parts
  | tag :: rest, cur, parts =>
    if cur.length + tag.length + 1 ≤ max_length then
      buildPartsGo rest (cur ++ tag ++ "\n") parts
    else
      buildPartsGo rest (tag ++ "\n") (parts ++ [rstrip cur])

/-- Greedy split of the tag list into reply chunks (src/main.py 86-96). -/
def buildParts (tags : List String) : List String :=
  buildPartsGo tags "" []

/-- Candidate tag list of src/main.py line 66: every stored handle except
the bot's own, rendered with an at-sign, in stored order. -/
def candidateTags (stored : List String) (bot_username : String) : List String :=
  (stored.filter (fun u => u != bot_username)).map (fun u => "@" ++ u)

/-- Chat administrator entry (the fields src/main.py reads). -/
structure Admin where
  user : User
deriving DecidableEq

/-- Administrators-fallback tag list of src/main.py line 71: admins that
are not bots, have a handle, and are not the bot itself. -/
def adminFallback (admins : List Admin) (bot_username : String) : List String :=
  (admins.filter (fun a =>
      !a.user.is_bot && pyTruthy a.user.username
        && (a.user.username.getD "" != bot_username))).map
    (fun a => "@" ++ a.user.username.getD "")

/-- Incoming message object (the fields src/main.py reads). -/
structure Message where
  chat : Chat
  text : Option String
  from_user : User
  message_id : Int
  is_topic_message : Bool
  message_thread_id : Option Int
deriving DecidableEq

/-- Environment a handler runs in: the bot's own username, the reply the
platform would give to get_chat_administrators, and the failure oracle
saying whether the k-th outbound platform call raises TelegramError. -/
structure Env where
  bot_username : String
  admins : List Admin
  failAt : Nat → Bool

/-- Thread id a reply is addressed to (src/main.py lines 76, 102, 110). -/
def threadOf (msg : Message) : Option Int :=
  if msg.is_topic_message then msg.message_thread_id else none

/-- Observable actions of a handler invocation, in order. -/
inductive Action : Type where
  | reply (body : String) (replyTo : Int) (thread : Option Int) : Action
  | getAdmins (chatId : Int) : Action
  | sleep : Action
  | logInfo (line : String) : Action
  | logError : Action
  | track (chat : Chat) (user : User) : Action
deriving DecidableEq

/-- Result of one tag_all invocation: action trace, resulting file state,
and whether an exception escaped the handler. -/
structure TagResult where
  actions : List Action
  fileState : FileState
  escaped : Bool
deriving DecidableEq

/-- Bodies of the replies in an action trace. -/
def repliesOf (acts : List Action) : List String :=
  acts.filterMap (fun a =>
    match a with
    | Action.reply body _ _ => some body
    | _ => none)

/-- Text of the no-members-or-admins notice (src/main.py line 74). -/
def noticeText : String :=
  "No members or admins with usernames found to tag! Users must send a message to be included."

/-- Text of the generic failure reply (src/main.py line 117). -/
def genericFailText : String :=
  "Sorry, I couldn't tag everyone. Please ensure I'm an admin and try again."

/-- Log line of src/main.py line 113. -/
def taggedLog (n : Nat) (chatId : Int) : String :=
  "Tagged " ++ toString n ++ " members in chat " ++ toString chatId

/-- Sequential chunk sends with the rate-limit sleep (src/main.py 98-105).
On success, the actions performed; on TelegramError, the call index after
the failing call together with the actions performed before it. -/
def sendChunks (msg : Message) (env : Env) :
    List String → Nat → Except (Nat × List Action) (List Action)
  | [], _ => Except.ok []
  | p :: rest, k =>
    if env.failAt k then Except.error (k + 1, [])
    else
      match sendChunks msg env rest (k + 1) with
      | Except.ok acts =>
        Except.ok (Action.reply p msg.message_id (threadOf msg) :: Action.sleep :: acts)
      | Except.error e =>
        Except.error (e.1, Action.reply p msg.message_id (threadOf msg) :: Action.sleep :: e.2)

/-- Sending a tag list (src/main.py lines 81-111): one reply if the joined
text fits max_length, otherwise the greedy chunks in sequence. -/
def sendTagList (msg : Message) (env : Env) (tagged_members : List String)
    (k : Nat) : Except (Nat × List Action) (List Action) :=
  let tagged_message := joinNl tagged_members
  if max_length < tagged_message.length then
    sendChunks msg env (buildParts tagged_members) k
  else if env.failAt k then Except.error (k + 1, [])
  else Except.ok [Action.reply tagged_message msg.message_id (threadOf msg)]

/-- The try block of tag_all (src/main.py lines 62-113): load members,
fall back to administrators, send, and log the tagged count.  Outbound
platform calls are numbered from 0 in program order. -/
def tryBody (msg : Message) (env : Env) (fs : FileState) :
    Except (Nat × List Action) (List Action) :=
  let members := loadReg fs
  let chat_id := toString msg.chat.id
  let tagged := candidateTags ((members.lookup chat_id).getD []) env.bot_username
  if tagged.isEmpty then
    if env.failAt 0 then Except.error (1, [])
    else
      let acts0 := [Action.getAdmins msg.chat.id]
      let fallback := adminFallback env.admins env.bot_username
      if fallback.isEmpty then
        if env.failAt 1 then Except.error (2, acts0)
        else Except.ok (acts0 ++ [Action.reply noticeText msg.message_id (threadOf msg)])
      else
        match sendTagList msg env fallback 1 with
        | Except.ok acts =>
          Except.ok (acts0 ++ acts ++ [Action.logInfo (taggedLog fallback.length msg.chat.id)])
        | Except.error e => Except.error (e.1, acts0 ++ e.2)
  else
    match sendTagList msg env tagged 0 with
    | Except.ok acts =>
      Except.ok (acts ++ [Action.logInfo (taggedLog tagged.length msg.chat.id)])
    | Except.error e => Except.error e

/-- The mention-response sequence with its except clause (src/main.py
lines 62-120).  A TelegramError from the try block is caught and logged,
then the generic failure reply is sent; that reply itself is outside the
try block, so if it raises, the exception escapes the handler. -/
def tagMention (msg : Message) (env : Env) (fs : FileState) : TagResult :=
  match tryBody msg env fs with
  | Except.ok acts => ⟨acts, fs, false⟩
  | Except.error e =>
    if env.failAt e.1 then ⟨e.2 ++ [Action.logError], fs, true⟩
    else
      ⟨e.2 ++ [Action.logError,
        Action.reply genericFailText msg.message_id (threadOf msg)], fs, false⟩

/-- Embeds tag_all (src/main.py lines 53-123), the handler for every
non-command text message. -/
def tag_all (msg : Message) (env : Env) (fs : FileState) : TagResult :=
  if (msg.chat.type == "group" || msg.chat.type == "supergroup")
      && pyTruthy msg.text then
    if mentionMatch (msg.text.getD "") env.bot_username then
      tagMention msg env fs
    else
      let r := track_members msg.chat msg.from_user fs
      ⟨[Action.track msg.chat msg.from_user], r.1, false⟩
  else ⟨[], fs, false⟩

/-! Lemmas about the member store. -/

/-- Decoding inverts encoding on username arrays. -/
lemma decodeStrList_encode (us : List String) :
    decodeStrList (us.map Json.str) = some us := by
  induction us with
  | nil => rfl
  | cons a r ih => simp [decodeStrList, ih]

/-- Decoding inverts encoding on registry fields. -/
lemma decodeFields_encode (R : Registry) :
    decodeFields (R.map (fun p => (p.1, Json.arr (p.2.map Json.str)))) = some R := by
  induction R with
  | nil => rfl
  | cons p r ih => simp [decodeFields, decodeStrList_encode, ih]

/-- A successful association-list lookup returns a member of the list. -/
lemma lookup_mem : ∀ (m : Registry) (k : String) (v : List String),
    List.lookup k m = some v → (k, v) ∈ m
  | [], _, _, h => by simp [List.lookup] at h
  | (a, b) :: rest, k, v, h => by
    by_cases hk : k = a
    · subst hk
      simp [List.lookup] at h
      simp [h]
    · have hb : (k == a) = false := beq_eq_false_iff_ne.mpr hk
      simp [List.lookup, hb] at h
      exact List.mem_cons_of_mem _ (lookup_mem rest k v h)

/-- Looking up the key just assigned by setKey yields the assigned value. -/
lemma lookup_setKey_self : ∀ (m : Registry) (k : String) (v : List String),
    List.lookup k (setKey m k v) = some v
  | [], k, v => by simp [setKey, List.lookup]
  | (a, b) :: rest, k, v => by
    by_cases hk : a = k
    · simp [setKey, hk, List.lookup]
    · have h1 : (a == k) = false := beq_eq_false_iff_ne.mpr hk
      have h2 : (k == a) = false := beq_eq_false_iff_ne.mpr (Ne.symm hk)
      simp [setKey, h1, List.lookup, h2, lookup_setKey_self rest k v]

/-- Entries after a setKey are old entries or the assigned pair. -/
lemma setKey_mem : ∀ (m : Registry) (k : String) (v : List String)
    (p : String × List String), p ∈ setKey m k v → p ∈ m ∨ p = (k, v)
  | [], k, v, p, hp => by
    simp [setKey] at hp
    exact Or.inr hp
  | (a, b) :: rest, k, v, p, hp => by
    by_cases hk : a = k
    · simp [setKey, hk] at hp
      rcases hp with hp | hp
      · exact Or.inr (by simp [hp])
      · exact Or.inl (List.mem_cons_of_mem _ hp)
    · have h1 : (a == k) = false := beq_eq_false_iff_ne.mpr hk
      simp [setKey, h1] at hp
      rcases hp with hp | hp
      · exact Or.inl (by simp [hp])
      · rcases setKey_mem rest k v p hp with h | h
        · exact Or.inl (List.mem_cons_of_mem _ h)
        · exact Or.inr h

/-- Guard of track_members (src/main.py line 42). -/
def trackGuard (c : Chat) (u : User) : Bool :=
  (c.type == "group" || c.type == "supergroup") && pyTruthy u.username && !u.is_bot

/-- Registry after the ensure-chat-entry step of track_members. -/
def trackMembers1 (c : Chat) (fs : FileState) : Registry :=
  if ((loadReg fs).lookup (toString c.id)).isSome then loadReg fs
  else loadReg fs ++ [(toString c.id, ([] : List String))]

/-- The chat's stored list as track_members sees it. -/
def trackCur (c : Chat) (fs : FileState) : List String :=
  ((trackMembers1 c fs).lookup (toString c.id)).getD []

/-- Unfolding equation for track_members. -/
lemma track_members_eq (c : Chat) (u : User) (fs : FileState) :
    track_members c u fs =
      if trackGuard c u then
        if (trackCur c fs).contains (u.username.getD "") then (fs, [FileOp.read])
        else (some (setKey (trackMembers1 c fs) (toString c.id)
          (trackCur c fs ++ [u.username.getD ""])), [FileOp.read, FileOp.write])
      else (fs, []) := rfl

/-- Entries of the ensured registry still have duplicate-free lists. -/
lemma trackMembers1_nodup (c : Chat) (fs : FileState) (h : RegInvariant fs) :
    ∀ p ∈ trackMembers1 c fs, List.Nodup p.2 := by
  intro p hp
  unfold trackMembers1 at hp
  split at hp
  · exact h p hp
  · rcases List.mem_append.mp hp with h2 | h2
    · exact h p h2
    · simp at h2
      simp [h2]

/-- The chat's stored list as seen by track_members has no duplicates. -/
lemma trackCur_nodup (c : Chat) (fs : FileState) (h : RegInvariant fs) :
    (trackCur c fs).Nodup := by
  unfold trackCur
  cases hl : (trackMembers1 c fs).lookup (toString c.id) with
  | none => simp
  | some w => simpa using trackMembers1_nodup c fs h _ (lookup_mem _ _ _ hl)

/-- One track step preserves the no-duplicates invariant. -/
lemma track_invariant (c : Chat) (u : User) (fs : FileState)
    (h : RegInvariant fs) : RegInvariant (track_members c u fs).1 := by
  rw [track_members_eq]
  split
  · split
    · exact h
    case isFalse hc =>
      have hnm : u.username.getD "" ∉ trackCur c fs := by simpa using hc
      intro p hp
      simp only [loadReg, Option.getD_some] at hp
      rcases setKey_mem _ _ _ _ hp with h2 | h2
      · exact trackMembers1_nodup c fs h p h2
      · rw [h2]
        simpa [List.concat_eq_append] using (trackCur_nodup c fs h).concat hnm
  · exact h

/-- A second track of the same user is a no-op on the file state. -/
lemma track_idem (c : Chat) (u : User) (fs : FileState) :
    (track_members c u (track_members c u fs).1).1 = (track_members c u fs).1 := by
  by_cases hg : trackGuard c u = true
  · by_cases hc : (trackCur c fs).contains (u.username.getD "") = true
    · have hc' : u.username.getD "" ∈ trackCur c fs := by simpa using hc
      simp [track_members_eq, hg, hc']
    · have hc' : u.username.getD "" ∉ trackCur c fs := by simpa using hc
      have hfs1 : (track_members c u fs).1
          = some (setKey (trackMembers1 c fs) (toString c.id)
              (trackCur c fs ++ [u.username.getD ""])) := by
        simp [track_members_eq, hg, hc']
      have hlook : (setKey (trackMembers1 c fs) (toString c.id)
          (trackCur c fs ++ [u.username.getD ""])).lookup (toString c.id)
          = some (trackCur c fs ++ [u.username.getD ""]) := lookup_setKey_self _ _ _
      have hmem : u.username.getD "" ∈ trackCur c fs ++ [u.username.getD ""] := by simp
      rw [hfs1, track_members_eq]
      generalize hv : trackCur c fs ++ [u.username.getD ""] = v at hlook hmem
      generalize hM : setKey (trackMembers1 c fs) (toString c.id) v = M at hlook ⊢
      simp [hg, trackCur, trackMembers1, loadReg, hlook, hmem]
  · simp [track_members_eq, hg]

/-- Tracking preserves the invariant across any sequence of messages. -/
lemma applyTracks_invariant (ops : List (Chat × User)) :
    ∀ (fs : FileState), RegInvariant fs → RegInvariant (applyTracks ops fs) := by
  induction ops with
  | nil => exact fun fs h => h
  | cons p rest ih =>
    intro fs h
    exact ih _ (track_invariant p.1 p.2 fs h)

/-- C3: for every registry R, performing save_members R and then
load_members returns a registry equal to R (the JSON document read back
decodes to exactly R). -/
theorem claim_C3 (R : Registry) :
    decodeRegistry (load_members (save_members R)) = some R := by
  simpa [load_members, save_members, decodeRegistry, encodeRegistry] using
    decodeFields_encode R

/-- C4: running track_members a second time with the same user leaves the
stored state unchanged, and after any sequence of track operations from an
initially absent file no chat's list contains a duplicate username. -/
theorem claim_C4 :
    (∀ (c : Chat) (u : User) (fs : FileState),
        (track_members c u (track_members c u fs).1).1 = (track_members c u fs).1)
    ∧ ∀ ops : List (Chat × User), RegInvariant (applyTracks ops none) :=
  ⟨track_idem, fun ops => applyTracks_invariant ops none
    (by intro p hp; simp [loadReg] at hp)⟩

/-- C5: when the sender is flagged as a bot, has an empty or absent handle,
or the chat is not a group or supergroup, track_members appends nothing
and performs no file read or write. -/
theorem claim_C5 (chat : Chat) (user : User) (fs : FileState)
    (h : user.is_bot = true ∨ pyTruthy user.username = false
      ∨ (chat.type ≠ "group" ∧ chat.type ≠ "supergroup")) :
    track_members chat user fs = (fs, []) := by
  have hg : trackGuard chat user = false := by
    unfold trackGuard
    rcases h with h | h | h
    · simp [h]
    · simp [h]
    · simp [h.1, h.2]
  simp [track_members_eq, hg]

/-- Witness for C5 at a private chat with an eligible sender. -/
theorem claim_C5_witness :
    ((⟨"private", 99⟩ : Chat).type ≠ "group"
      ∧ (⟨"private", 99⟩ : Chat).type ≠ "supergroup")
    ∧ track_members ⟨"private", 99⟩ ⟨some "alice", false⟩ (some [("99", ["bob"])])
        = (some [("99", ["bob"])], []) :=
  ⟨by decide, claim_C5 _ _ _ (Or.inr (Or.inr (by decide)))⟩

/-! Lemmas about strings, the newline join and the greedy chunking. -/

/-- A string is nonempty iff its character data is. -/
lemma str_ne_empty_iff (s : String) : s ≠ "" ↔ s.data ≠ [] := by
  constructor
  · intro h hd
    exact h (String.ext hd)
  · intro h hd
    exact h (by rw [hd])

/-- Running chunk built from a group of tags: each tag followed by the
separator, exactly as current_part accumulates in src/main.py line 91. -/
def curOf : List String → String
  | [] => ""
  | t :: r => t ++ "\n" ++ curOf r

/-- The running chunk of a single tag. -/
lemma curOf_single (t : String) : curOf [t] = t ++ "\n" := by
  show t ++ "\n" ++ curOf [] = t ++ "\n"
  show t ++ "\n" ++ "" = t ++ "\n"
  rw [String.append_empty]

/-- Appending one more tag to the running chunk. -/
lemma curOf_append (g : List String) (t : String) :
    curOf (g ++ [t]) = curOf g ++ (t ++ "\n") := by
  induction g with
  | nil =>
    rw [List.nil_append, curOf_single]
    show t ++ "\n" = "" ++ (t ++ "\n")
    rw [String.empty_append]
  | cons a r ih =>
    show a ++ "\n" ++ curOf (r ++ [t]) = a ++ "\n" ++ curOf r ++ (t ++ "\n")
    rw [ih]
    simp [String.append_assoc]

/-- Length of the running chunk after one more tag. -/
lemma curOf_append_length (g : List String) (t : String) :
    (curOf (g ++ [t])).length = (curOf g).length + t.length + 1 := by
  rw [curOf_append, String.length_append, String.length_append]
  rfl

/-- The running chunk is empty exactly for the empty group. -/
lemma curOf_eq_empty_iff (g : List String) : curOf g = "" ↔ g = [] := by
  cases g with
  | nil => simp [curOf]
  | cons t r =>
    constructor
    · intro h
      have h2 := congrArg String.length h
      rw [show curOf (t :: r) = t ++ "\n" ++ curOf r from rfl,
        String.length_append, String.length_append] at h2
      have h3 : String.length "\n" = 1 := rfl
      have h4 : String.length "" = 0 := rfl
      rw [h3, h4] at h2
      exact absurd h2 (by omega)
    · intro h
      exact absurd h (by simp)

/-- Dropping nothing: dropWhile on a list whose head fails the predicate. -/
lemma dropWhile_head_false {p : Char → Bool} {l : List Char} {c : Char}
    (hh : l.head? = some c) (hc : p c = false) : l.dropWhile p = l := by
  cases l with
  | nil => simp at hh
  | cons a r =>
    simp at hh
    subst hh
    simp [List.dropWhile, hc]

/-- Python rstrip of a chunk: it removes exactly the final separator when
the text before it ends in a non-whitespace character. -/
lemma rstrip_append_newline (x : String) (h : goodTail x = true) :
    rstrip (x ++ "\n") = x := by
  obtain ⟨c, hl, hc⟩ : ∃ c, x.data.getLast? = some c ∧ pySpace c = false := by
    unfold goodTail at h
    rcases hg : x.data.getLast? with _ | c
    · rw [hg] at h
      simp at h
    · rw [hg] at h
      simp at h
      exact ⟨c, rfl, h⟩
  have hrev : x.data.reverse.head? = some c := by
    rw [List.head?_reverse]
    exact hl
  have hstep : (x ++ "\n").data.reverse = '\n' :: x.data.reverse := by
    rw [String.data_append]
    simp
  unfold rstrip
  rw [hstep, List.dropWhile_cons, if_pos (show pySpace ('\n') = true from rfl),
    dropWhile_head_false hrev hc, List.reverse_reverse]

/-- rstrip never lengthens a string. -/
lemma rstrip_length_le (s : String) : (rstrip s).length ≤ s.length := by
  show ((s.data.reverse.dropWhile pySpace).reverse).length ≤ s.data.length
  rw [List.length_reverse]
  calc (s.data.reverse.dropWhile pySpace).length ≤ s.data.reverse.length :=
        (List.dropWhile_sublist pySpace).length_le
    _ = s.data.length := List.length_reverse _

/-- Unfolding the newline join at a cons with a nonempty tail. -/
lemma joinNl_cons_ne (a : String) (l : List String) (h : l ≠ []) :
    joinNl (a :: l) = a ++ "\n" ++ joinNl l := by
  cases l with
  | nil => exact absurd rfl h
  | cons b r => rfl

/-- The newline join distributes over append of nonempty lists. -/
lemma joinNl_append (g h : List String) (hg : g ≠ []) (hh : h ≠ []) :
    joinNl (g ++ h) = joinNl g ++ "\n" ++ joinNl h := by
  induction g with
  | nil => exact absurd rfl hg
  | cons t r ih =>
    cases hr : r with
    | nil =>
      subst hr
      rw [List.singleton_append, joinNl_cons_ne t h hh]
      rfl
    | cons b s =>
      rw [← hr]
      have hr2 : r ≠ [] := by simp [hr]
      have hra : r ++ h ≠ [] := by simp [hr]
      rw [List.cons_append, joinNl_cons_ne t (r ++ h) hra, ih hr2,
        joinNl_cons_ne t r hr2]
      apply String.ext
      simp [String.data_append]

/-- The running chunk is the newline join plus the trailing separator. -/
lemma curOf_eq_joinNl (g : List String) (hg : g ≠ []) :
    curOf g = joinNl g ++ "\n" := by
  induction g with
  | nil => exact absurd rfl hg
  | cons t r ih =>
    cases hr : r with
    | nil =>
      subst hr
      rw [curOf_single]
      rfl
    | cons b s =>
      rw [← hr]
      have hr2 : r ≠ [] := by simp [hr]
      show t ++ "\n" ++ curOf r = joinNl (t :: r) ++ "\n"
      rw [ih hr2, joinNl_cons_ne t r hr2]
      apply String.ext
      simp [String.data_append]

/-- Length relation between the running chunk and the joined chunk. -/
lemma curOf_length_eq (g : List String) (hg : g ≠ []) :
    (curOf g).length = (joinNl g).length + 1 := by
  rw [curOf_eq_joinNl g hg, String.length_append]
  rfl

/-- Appending a string with a good tail keeps the tail good. -/
lemma goodTail_append (x t : String) (h : goodTail t = true) :
    goodTail (x ++ t) = true := by
  unfold goodTail at h ⊢
  rcases hl : t.data.getLast? with _ | c
  · rw [hl] at h
    simp at h
  · have hne : t.data ≠ [] := by
      intro hn
      rw [hn] at hl
      simp at hl
    rw [hl] at h
    rw [String.data_append, List.getLast?_append_of_ne_nil _ hne, hl]
    exact h

/-- The newline join of tags with good tails has a good tail. -/
lemma goodTail_joinNl (g : List String) (hg : g ≠ [])
    (hgood : ∀ t ∈ g, goodTail t = true) : goodTail (joinNl g) = true := by
  rcases List.eq_nil_or_concat g with rfl | ⟨L, b, rfl⟩
  · exact absurd rfl hg
  · have hb : goodTail b = true := hgood b (by simp)
    rw [List.concat_eq_append]
    cases hL : L with
    | nil =>
      subst hL
      simpa [joinNl] using hb
    | cons x r =>
      rw [← hL]
      have hLne : L ≠ [] := by simp [hL]
      rw [joinNl_append L [b] hLne (by simp)]
      show goodTail (joinNl L ++ "\n" ++ joinNl [b]) = true
      rw [String.append_assoc]
      exact goodTail_append _ _ (goodTail_append _ _ hb)

/-- rstrip turns the running chunk into the newline-joined chunk. -/
lemma rstrip_curOf (g : List String) (hg : g ≠ [])
    (hgood : ∀ t ∈ g, goodTail t = true) : rstrip (curOf g) = joinNl g := by
  rw [curOf_eq_joinNl g hg]
  exact rstrip_append_newline _ (goodTail_joinNl g hg hgood)

/-- Ghost grouping of the greedy loop of src/main.py lines 87-96: which
tags land in which chunk, with the same accumulation condition. -/
def greedyGroups : List String → List String → List (List String)
  | [], gcur => if gcur = [] then [] else [gcur]
  | tag :: rest, gcur =>
    if (curOf gcur).length + tag.length + 1 ≤ max_length then
      greedyGroups rest (gcur ++ [tag])
    else gcur :: greedyGroups rest [tag]

/-- The greedy grouping loses, duplicates and reorders no tag. -/
lemma greedyGroups_flatten : ∀ (tags gcur : List String),
    (greedyGroups tags gcur).flatten = gcur ++ tags := by
  intro tags
  induction tags with
  | nil =>
    intro gcur
    by_cases hg : gcur = [] <;> simp [greedyGroups, hg]
  | cons tag rest ih =>
    intro gcur
    rw [greedyGroups]
    by_cases hc : (curOf gcur).length + tag.length + 1 ≤ max_length
    · rw [if_pos hc, ih]
      simp
    · rw [if_neg hc]
      simp [ih]

/-- Every group produced by the greedy grouping is nonempty, provided each
tag fits a chunk by itself. -/
lemma greedyGroups_mem_ne_nil : ∀ (tags gcur g : List String),
    (∀ t ∈ tags, t.length + 1 ≤ max_length) →
    g ∈ greedyGroups tags gcur → g ≠ [] := by
  intro tags
  induction tags with
  | nil =>
    intro gcur g _ hm
    unfold greedyGroups at hm
    split at hm
    · simp at hm
    case isFalse hne =>
      simp at hm
      rw [hm]
      exact hne
  | cons tag rest ih =>
    intro gcur g htags hm
    have htag : tag.length + 1 ≤ max_length := htags tag (by simp)
    have hrest : ∀ t ∈ rest, t.length + 1 ≤ max_length :=
      fun t ht => htags t (by simp [ht])
    rw [greedyGroups] at hm
    split at hm
    · exact ih _ g hrest hm
    case isFalse hc =>
      rcases List.mem_cons.mp hm with hm | hm
      · subst hm
        intro he
        apply hc
        rw [he]
        have h0 : (curOf ([] : List String)).length = 0 := rfl
        rw [h0]
        omega
      · exact ih _ g hrest hm

/-- Every group produced by the greedy grouping fits the threshold as a
running chunk (separators included). -/
lemma greedyGroups_len_le : ∀ (tags gcur g : List String),
    (∀ t ∈ tags, t.length + 1 ≤ max_length) →
    (curOf gcur).length ≤ max_length →
    g ∈ greedyGroups tags gcur → (curOf g).length ≤ max_length := by
  intro tags
  induction tags with
  | nil =>
    intro gcur g _ hcur hm
    unfold greedyGroups at hm
    split at hm
    · simp at hm
    · simp at hm
      rw [hm]
      exact hcur
  | cons tag rest ih =>
    intro gcur g htags hcur hm
    have htag : tag.length + 1 ≤ max_length := htags tag (by simp)
    have hrest : ∀ t ∈ rest, t.length + 1 ≤ max_length :=
      fun t ht => htags t (by simp [ht])
    rw [greedyGroups] at hm
    split at hm
    case isTrue hc =>
      refine ih _ g hrest ?_ hm
      rw [curOf_append_length]
      exact hc
    case isFalse hc =>
      rcases List.mem_cons.mp hm with hm | hm
      · subst hm
        exact hcur
      · refine ih _ g hrest ?_ hm
        have h1 : (curOf [tag]).length = tag.length + 1 := by
          rw [curOf_single, String.length_append]
          rfl
        rw [h1]
        exact htag

/-- The greedy loop computes exactly the newline joins of the greedy
groups, appended to the chunks already closed. -/
lemma buildPartsGo_eq : ∀ (tags gcur parts : List String),
    (∀ t ∈ tags, t.length + 1 ≤ max_length ∧ goodTail t = true) →
    (∀ t ∈ gcur, goodTail t = true) →
    buildPartsGo tags (curOf gcur) parts
      = parts ++ (greedyGroups tags gcur).map joinNl := by
  intro tags
  induction tags with
  | nil =>
    intro gcur parts _ hcur
    by_cases hg : gcur = []
    · subst hg
      simp [buildPartsGo, greedyGroups, curOf]
    · have hne : curOf gcur ≠ "" := by
        rw [Ne, curOf_eq_empty_iff]
        exact hg
      rw [buildPartsGo, if_pos hne, greedyGroups, if_neg hg,
        rstrip_curOf gcur hg hcur]
      simp
  | cons tag rest ih =>
    intro gcur parts htags hcur
    have htag := htags tag (by simp)
    have hrest : ∀ t ∈ rest, t.length + 1 ≤ max_length ∧ goodTail t = true :=
      fun t ht => htags t (by simp [ht])
    rw [buildPartsGo, greedyGroups]
    by_cases hc : (curOf gcur).length + tag.length + 1 ≤ max_length
    · rw [if_pos hc, if_pos hc]
      have hstep : curOf gcur ++ tag ++ "\n" = curOf (gcur ++ [tag]) := by
        rw [curOf_append, String.append_assoc]
      rw [hstep]
      refine ih (gcur ++ [tag]) parts hrest ?_
      intro t ht
      rcases List.mem_append.mp ht with h | h
      · exact hcur t h
      · simp at h
        subst h
        exact htag.2
    · rw [if_neg hc, if_neg hc]
      have hg : gcur ≠ [] := by
        intro he
        apply hc
        rw [he]
        have h0 : (curOf ([] : List String)).length = 0 := rfl
        rw [h0]
        omega
      rw [rstrip_curOf gcur hg hcur, show tag ++ "\n" = curOf [tag] from (curOf_single tag).symm]
      rw [ih [tag] (parts ++ [joinNl gcur]) hrest (by
        intro t ht
        simp at ht
        subst ht
        exact htag.2)]
      simp

/-- A flatten of nonempty lists headed by a nonempty list is nonempty. -/
lemma flatten_ne_nil (G : List (List String)) (hG : G ≠ [])
    (h : ∀ g ∈ G, g ≠ []) : G.flatten ≠ [] := by
  cases G with
  | nil => exact absurd rfl hG
  | cons g rest =>
    rw [List.flatten_cons]
    have hg : g ≠ [] := h g (by simp)
    simp [hg]

/-- Joining the per-group joins equals joining the flattened groups, for
nonempty groups. -/
lemma joinNl_map_flatten : ∀ (G : List (List String)),
    (∀ g ∈ G, g ≠ []) → joinNl (G.map joinNl) = joinNl G.flatten := by
  intro G
  induction G with
  | nil => intro _; rfl
  | cons g rest ih =>
    intro h
    cases hr : rest with
    | nil =>
      subst hr
      show joinNl [joinNl g] = joinNl (g :: []).flatten
      rw [show ((g :: []).flatten : List String) = g ++ [] by simp]
      rw [List.append_nil]
      rfl
    | cons g2 r2 =>
      rw [← hr]
      have hrne : rest ≠ [] := by simp [hr]
      have hmapne : rest.map joinNl ≠ [] := by simp [hr]
      have hrest : ∀ x ∈ rest, x ≠ [] := fun x hx => h x (List.mem_cons_of_mem _ hx)
      have hflatne : rest.flatten ≠ [] := flatten_ne_nil rest hrne hrest
      show joinNl (joinNl g :: rest.map joinNl) = joinNl (g :: rest).flatten
      rw [joinNl_cons_ne _ _ hmapne, ih hrest, List.flatten_cons,
        joinNl_append g rest.flatten (h g (by simp)) hflatne]

/-- With no platform failures, the chunk loop sends every chunk in order. -/
lemma sendChunks_ok (msg : Message) (env : Env) (hf : ∀ j, env.failAt j = false) :
    ∀ (ps : List String) (k : Nat), ∃ acts, sendChunks msg env ps k = Except.ok acts
      ∧ repliesOf acts = ps := by
  intro ps
  induction ps with
  | nil => exact fun k => ⟨[], rfl, rfl⟩
  | cons p rest ih =>
    intro k
    obtain ⟨acts, hok, hrep⟩ := ih (k + 1)
    refine ⟨Action.reply p msg.message_id (threadOf msg) :: Action.sleep :: acts, ?_, ?_⟩
    · rw [sendChunks, if_neg (by simp [hf k]), hok]
    · simp [repliesOf] at hrep ⊢
      exact hrep

/-- C1 (amended): for a tag list whose entries each fit a chunk with their
separator and end in a non-whitespace character, if the newline-joined
text exceeds max_length then, absent platform failures, the mention
response sends at least two replies, each at most max_length characters,
the chunks partition the tag list in order with no entry split, omitted
or duplicated, and rejoining the chunk bodies with newlines reproduces
the original joined list. -/
theorem claim_C1 (msg : Message) (env : Env) (tags : List String)
    (hgood : ∀ t ∈ tags, t.length + 1 ≤ max_length ∧ goodTail t = true)
    (hbig : max_length < (joinNl tags).length)
    (hf : ∀ j, env.failAt j = false) :
    2 ≤ (buildParts tags).length
    ∧ (∀ p ∈ buildParts tags, p.length ≤ max_length)
    ∧ (∃ groups : List (List String), groups.flatten = tags
        ∧ (∀ g ∈ groups, g ≠ []) ∧ buildParts tags = groups.map joinNl)
    ∧ joinNl (buildParts tags) = joinNl tags
    ∧ (∃ acts, sendTagList msg env tags 0 = Except.ok acts
        ∧ repliesOf acts = buildParts tags) := by
  have hlen : ∀ t ∈ tags, t.length + 1 ≤ max_length := fun t ht => (hgood t ht).1
  obtain ⟨G, hGdef⟩ : ∃ G, greedyGroups tags [] = G := ⟨_, rfl⟩
  have heq : buildParts tags = G.map joinNl := by
    have h1 := buildPartsGo_eq tags [] [] hgood (by intro t ht; simp at ht)
    rw [show curOf ([] : List String) = "" from rfl, hGdef] at h1
    simpa [buildParts] using h1
  have hflat : G.flatten = tags := by
    rw [← hGdef]
    simpa using greedyGroups_flatten tags []
  have hne : ∀ g ∈ G, g ≠ [] := by
    rw [← hGdef]
    exact fun g hm => greedyGroups_mem_ne_nil tags [] g hlen hm
  have hlenG : ∀ g ∈ G, (curOf g).length ≤ max_length := by
    rw [← hGdef]
    refine fun g hm => greedyGroups_len_le tags [] g hlen ?_ hm
    rw [show (curOf ([] : List String)).length = 0 from rfl]
    omega
  have hover : ∀ p ∈ buildParts tags, p.length ≤ max_length := by
    rw [heq]
    intro p hp
    obtain ⟨g, hg, rfl⟩ := List.mem_map.mp hp
    have h1 := hlenG g hg
    rw [curOf_length_eq g (hne g hg)] at h1
    omega
  have hrejoin : joinNl (buildParts tags) = joinNl tags := by
    rw [heq, joinNl_map_flatten G hne, hflat]
  refine ⟨?_, hover, ⟨G, hflat, hne, heq⟩, hrejoin, ?_⟩
  · rw [heq, List.length_map]
    rcases G with _ | ⟨g, _ | ⟨g2, rest⟩⟩
    · rw [show (([] : List (List String)).flatten) = [] from rfl] at hflat
      rw [← hflat] at hbig
      exact absurd hbig (by decide)
    · have hgne : g ≠ [] := hne g (by simp)
      have hc1 : (curOf g).length ≤ max_length := hlenG g (by simp)
      rw [curOf_length_eq g hgne] at hc1
      have hflat1 : g = tags := by simpa using hflat
      rw [← hflat1] at hbig
      omega
    · simp
  · rw [sendTagList]
    rw [if_pos hbig]
    obtain ⟨acts, hok, hrep⟩ := sendChunks_ok msg env hf (buildParts tags) 0
    exact ⟨acts, hok, hrep⟩

/-- Tag used by the C1 witness: 3999 characters ending in a letter. -/
def witTag : String := String.mk (List.replicate 3999 'a')

/-- Length of the witness tag. -/
lemma witTag_length : witTag.length = 3999 := by
  show (List.replicate 3999 'a').length = 3999
  rw [List.length_replicate]

/-- The witness tag ends in a non-whitespace character. -/
lemma witTag_goodTail : goodTail witTag = true := by
  unfold goodTail witTag
  rw [show (String.mk (List.replicate 3999 'a')).data = List.replicate 3999 'a' from rfl,
    List.getLast?_replicate]
  decide

/-- Concrete message used by witnesses. -/
def msgW : Message := ⟨⟨"group", 1⟩, some "hi", ⟨some "alice", false⟩, 2, false, none⟩

/-- Concrete environment with no failing platform calls. -/
def envW : Env := ⟨"mybot", [], fun _ => false⟩

/-- Witness for C1 on two 3999-character tags. -/
theorem claim_C1_witness :
    (∀ t ∈ [witTag, witTag], t.length + 1 ≤ max_length ∧ goodTail t = true)
    ∧ max_length < (joinNl [witTag, witTag]).length
    ∧ (2 ≤ (buildParts [witTag, witTag]).length
      ∧ (∀ p ∈ buildParts [witTag, witTag], p.length ≤ max_length)
      ∧ (∃ groups : List (List String), groups.flatten = [witTag, witTag]
          ∧ (∀ g ∈ groups, g ≠ []) ∧ buildParts [witTag, witTag] = groups.map joinNl)
      ∧ joinNl (buildParts [witTag, witTag]) = joinNl [witTag, witTag]
      ∧ (∃ acts, sendTagList msgW envW [witTag, witTag] 0 = Except.ok acts
          ∧ repliesOf acts = buildParts [witTag, witTag])) := by
  have h1 : ∀ t ∈ [witTag, witTag], t.length + 1 ≤ max_length ∧ goodTail t = true := by
    intro t ht
    have : t = witTag := by
      rcases List.mem_cons.mp ht with h | h
      · exact h
      · simpa using h
    rw [this, witTag_length]
    exact ⟨by decide, witTag_goodTail⟩
  have h2 : max_length < (joinNl [witTag, witTag]).length := by
    rw [show joinNl [witTag, witTag] = witTag ++ "\n" ++ witTag from rfl,
      String.length_append, String.length_append, witTag_length]
    decide
  exact ⟨h1, h2, claim_C1 msgW envW [witTag, witTag] h1 h2 (fun j => rfl)⟩

/-- Oversized tag used by the C1 counterexample: 4001 characters. -/
def bigTag : String := String.mk (List.replicate 4001 'x')

/-- Length of the oversized tag. -/
lemma bigTag_length : bigTag.length = 4001 := by
  show (List.replicate 4001 'x').length = 4001
  rw [List.length_replicate]

/-- The oversized tag ends in a non-whitespace character. -/
lemma bigTag_goodTail : goodTail bigTag = true := by
  unfold goodTail bigTag
  rw [show (String.mk (List.replicate 4001 'x')).data = List.replicate 4001 'x' from rfl,
    List.getLast?_replicate]
  decide

/-- The greedy loop on the counterexample input, evaluated. -/
lemma buildParts_cex : buildParts [bigTag, "a "] = ["", bigTag, "a"] := by
  unfold buildParts
  rw [buildPartsGo, if_neg (by
    rw [show (String.length "") = 0 from rfl, bigTag_length]
    decide)]
  rw [show rstrip "" = "" from rfl]
  rw [buildPartsGo, if_neg (by
    rw [String.length_append, bigTag_length]
    decide)]
  rw [rstrip_append_newline bigTag bigTag_goodTail]
  rw [buildPartsGo, if_pos (by decide)]
  rw [show rstrip ("a " ++ "\n") = "a" by decide]
  simp

/-- Counterexample to C1 as stated: with an entry longer than the
threshold and an entry ending in whitespace, the joined list exceeds
max_length yet one chunk exceeds max_length and rejoining the chunks does
not reproduce the original joined list. -/
theorem claim_C1_cex :
    max_length < (joinNl [bigTag, "a "]).length
    ∧ ¬ (∀ p ∈ buildParts [bigTag, "a "], p.length ≤ max_length)
    ∧ joinNl (buildParts [bigTag, "a "]) ≠ joinNl [bigTag, "a "] := by
  have hbig : max_length < (joinNl [bigTag, "a "]).length := by
    rw [show joinNl [bigTag, "a "] = bigTag ++ "\n" ++ "a " from rfl,
      String.length_append, String.length_append, bigTag_length]
    decide
  refine ⟨hbig, ?_, ?_⟩
  · intro h
    have h1 := h bigTag (by rw [buildParts_cex]; simp)
    rw [bigTag_length] at h1
    exact absurd h1 (by decide)
  · have hL : (joinNl (buildParts [bigTag, "a "])).data.head? = some ('\n') := by
      rw [buildParts_cex]
      rw [show joinNl ["", bigTag, "a"] = ("" ++ "\n") ++ joinNl [bigTag, "a"] from rfl]
      rw [String.data_append, show ("" ++ "\n").data = ['\n'] from rfl]
      simp
    have hR : (joinNl [bigTag, "a "]).data.head? = some ('x') := by
      rw [show joinNl [bigTag, "a "] = (bigTag ++ "\n") ++ "a " from rfl]
      rw [String.data_append, String.data_append]
      rw [show bigTag.data = List.replicate 4001 'x' from rfl]
      rw [show (4001 : Nat) = 4000 + 1 from rfl, List.replicate_succ,
        List.cons_append, List.cons_append, List.head?_cons]
    intro h
    rw [h, hR] at hL
    exact absurd hL (by decide)

/-! Lemmas and claims about the mention-response sequence. -/

/-- With no platform failures, sending a tag list succeeds. -/
lemma sendTagList_ok (msg : Message) (env : Env) (hf : ∀ j, env.failAt j = false)
    (tagged : List String) (k : Nat) :
    ∃ acts, sendTagList msg env tagged k = Except.ok acts := by
  simp only [sendTagList]
  split
  · obtain ⟨acts, hok, _⟩ := sendChunks_ok msg env hf (buildParts tagged) k
    exact ⟨acts, hok⟩
  · rw [if_neg (by simp [hf k])]
    exact ⟨_, rfl⟩

/-- C6: the candidate tag list is every stored handle other than the bot's
own, at-prefixed, in stored order; concretely, a mention with stored
members alice, bob, carol and bot handle mybot sends the single reply
with body at-alice newline at-bob newline at-carol. -/
theorem claim_C6 :
    (∀ (stored : List String) (bu x : String),
      (x ∈ candidateTags stored bu ↔ ∃ u, u ∈ stored ∧ u ≠ bu ∧ x = "@" ++ u)
      ∧ (candidateTags stored bu).Sublist (stored.map (fun u => "@" ++ u)))
    ∧ tag_all ⟨⟨"supergroup", 123⟩, some "hey @mybot", ⟨some "dan", false⟩, 10, false, none⟩
        envW (some [("123", ["alice", "bob", "carol"])])
      = ⟨[Action.reply "@alice\n@bob\n@carol" 10 none,
          Action.logInfo "Tagged 3 members in chat 123"],
         some [("123", ["alice", "bob", "carol"])], false⟩ := by
  constructor
  · intro stored bu x
    constructor
    · simp only [candidateTags, List.mem_map, List.mem_filter]
      constructor
      · rintro ⟨u, ⟨hu, hne⟩, rfl⟩
        exact ⟨u, hu, by simpa using hne, rfl⟩
      · rintro ⟨u, hu, hne, rfl⟩
        exact ⟨u, ⟨hu, by simpa using hne⟩, rfl⟩
    · exact (List.filter_sublist stored).map _
  · decide

/-- C7: the administrators fallback keeps exactly the non-bot admins with
a handle different from the bot's own, at-prefixed; concretely, with an
empty stored list and admins dave (non-bot), a bot admin and a non-bot
admin without a handle, the mention response queries the administrators
and replies exactly with at-dave. -/
theorem claim_C7 :
    (∀ (admins : List Admin) (bu x : String),
      (x ∈ adminFallback admins bu ↔ ∃ a, a ∈ admins ∧ a.user.is_bot = false
        ∧ pyTruthy a.user.username = true ∧ a.user.username.getD "" ≠ bu
        ∧ x = "@" ++ a.user.username.getD "")
      ∧ (adminFallback admins bu).Sublist
          (admins.map (fun a => "@" ++ a.user.username.getD "")))
    ∧ adminFallback [⟨⟨some "dave", false⟩⟩, ⟨⟨some "helper", true⟩⟩, ⟨⟨none, false⟩⟩]
        "mybot" = ["@dave"]
    ∧ tag_all ⟨⟨"group", 7⟩, some "@mybot", ⟨some "eve", false⟩, 3, false, none⟩
        ⟨"mybot", [⟨⟨some "dave", false⟩⟩, ⟨⟨some "helper", true⟩⟩, ⟨⟨none, false⟩⟩],
          fun _ => false⟩ (some [])
      = ⟨[Action.getAdmins 7, Action.reply "@dave" 3 none,
          Action.logInfo "Tagged 1 members in chat 7"], some [], false⟩ := by
  refine ⟨?_, by decide, by decide⟩
  intro admins bu x
  constructor
  · simp only [adminFallback, List.mem_map, List.mem_filter]
    constructor
    · rintro ⟨a, ⟨ha, hp⟩, rfl⟩
      simp only [Bool.and_eq_true, Bool.not_eq_eq_eq_not, Bool.not_true] at hp
      exact ⟨a, ha, hp.1.1, hp.1.2, by simpa using hp.2, rfl⟩
    · rintro ⟨a, ha, hbot, hhand, hne, rfl⟩
      refine ⟨a, ⟨ha, ?_⟩, rfl⟩
      simp [hbot, hhand, hne]
  · exact (List.filter_sublist admins).map _

/-- Environment whose only failing platform call is the first one. -/
def envFail0 : Env := ⟨"mybot", [], fun k => k == 0⟩

/-- Environment where every platform call raises TelegramError. -/
def envFailAll : Env := ⟨"mybot", [], fun _ => true⟩

/-- C2 (amended): a TelegramError raised inside the try block of the
mention response is caught, not re-raised; it is logged and followed by
exactly one generic failure reply, and the handler ends cleanly, provided
the generic reply send itself succeeds.  Moreover the try block only
fails when some platform call fails. -/
theorem claim_C2 :
    (∀ (msg : Message) (env : Env) (fs : FileState) (k : Nat) (acts : List Action),
      tryBody msg env fs = Except.error (k, acts) → env.failAt k = false →
      tagMention msg env fs = ⟨acts ++ [Action.logError,
        Action.reply genericFailText msg.message_id (threadOf msg)], fs, false⟩)
    ∧ (∀ (msg : Message) (env : Env) (fs : FileState),
      (∀ j, env.failAt j = false) → ∃ acts, tryBody msg env fs = Except.ok acts) := by
  constructor
  · intro msg env fs k acts herr hfk
    unfold tagMention
    rw [herr]
    simp [hfk]
  · intro msg env fs hf
    simp only [tryBody]
    split
    · rw [if_neg (by simp [hf 0])]
      split
      · rw [if_neg (by simp [hf 1])]
        exact ⟨_, rfl⟩
      · obtain ⟨acts, hok⟩ := sendTagList_ok msg env hf _ 1
        rw [hok]
        exact ⟨_, rfl⟩
    · obtain ⟨acts, hok⟩ := sendTagList_ok msg env hf _ 0
      rw [hok]
      exact ⟨_, rfl⟩

/-- Witness for C2: the single reply send fails, the generic reply
succeeds, and the handler ends cleanly with the generic reply sent. -/
theorem claim_C2_witness :
    tryBody msgW envFail0 (some [("1", ["alice"])]) = Except.error (1, [])
    ∧ envFail0.failAt 1 = false
    ∧ tagMention msgW envFail0 (some [("1", ["alice"])])
        = ⟨[] ++ [Action.logError,
            Action.reply genericFailText msgW.message_id (threadOf msgW)],
           some [("1", ["alice"])], false⟩ :=
  ⟨rfl, by decide,
    claim_C2.1 msgW envFail0 (some [("1", ["alice"])]) 1 [] rfl (by decide)⟩

/-- Counterexample to C2 as stated: when the generic failure reply itself
raises TelegramError, no reply is sent and the exception escapes the
handler. -/
theorem claim_C2_cex :
    (tag_all ⟨⟨"group", 1⟩, some "@mybot", ⟨some "alice", false⟩, 2, false, none⟩
        envFailAll (some [("1", ["alice"])])).escaped = true
    ∧ repliesOf (tag_all ⟨⟨"group", 1⟩, some "@mybot", ⟨some "alice", false⟩, 2, false, none⟩
        envFailAll (some [("1", ["alice"])])).actions = [] := by
  decide

/-- C8: a mention in a chat with no stored members and no eligible
administrators produces exactly one reply, carrying the fixed notice, and
nothing else is sent. -/
theorem claim_C8 (msg : Message) (env : Env) (fs : FileState) (t : String)
    (hchat : msg.chat.type = "group" ∨ msg.chat.type = "supergroup")
    (htext : msg.text = some t) (hne : t ≠ "")
    (hmention : mentionMatch t env.bot_username = true)
    (hstored : ((loadReg fs).lookup (toString msg.chat.id)).getD [] = [])
    (hadmins : adminFallback env.admins env.bot_username = [])
    (hf : ∀ j, env.failAt j = false) :
    (tag_all msg env fs).actions = [Action.getAdmins msg.chat.id,
      Action.reply noticeText msg.message_id (threadOf msg)]
    ∧ repliesOf (tag_all msg env fs).actions = [noticeText] := by
  have hguard : ((msg.chat.type == "group" || msg.chat.type == "supergroup")
      && pyTruthy msg.text) = true := by
    rw [htext]
    rcases hchat with h | h <;> simp [h, pyTruthy, hne]
  have hmm : mentionMatch (msg.text.getD "") env.bot_username = true := by
    rw [htext]
    exact hmention
  have htry : tryBody msg env fs = Except.ok [Action.getAdmins msg.chat.id,
      Action.reply noticeText msg.message_id (threadOf msg)] := by
    simp only [tryBody]
    rw [hstored, show candidateTags [] env.bot_username = [] from rfl]
    simp [hf 0, hf 1, hadmins]
  have hres : tag_all msg env fs = ⟨[Action.getAdmins msg.chat.id,
      Action.reply noticeText msg.message_id (threadOf msg)], fs, false⟩ := by
    simp only [tag_all]
    rw [if_pos hguard, if_pos hmm]
    unfold tagMention
    rw [htry]
  rw [hres]
  exact ⟨rfl, rfl⟩

/-- Witness for C8 in a topic thread with one bot administrator. -/
theorem claim_C8_witness :
    ((⟨⟨"group", 5⟩, some "@mybot", ⟨some "fred", false⟩, 4, true, some 9⟩ : Message).chat.type
        = "group"
      ∨ (⟨⟨"group", 5⟩, some "@mybot", ⟨some "fred", false⟩, 4, true, some 9⟩ : Message).chat.type
        = "supergroup")
    ∧ ("@mybot" : String) ≠ ""
    ∧ mentionMatch "@mybot" "mybot" = true
    ∧ ((loadReg (none : FileState)).lookup (toString (5 : Int))).getD [] = []
    ∧ adminFallback [⟨⟨some "helper", true⟩⟩] "mybot" = []
    ∧ ((tag_all ⟨⟨"group", 5⟩, some "@mybot", ⟨some "fred", false⟩, 4, true, some 9⟩
          ⟨"mybot", [⟨⟨some "helper", true⟩⟩], fun _ => false⟩ none).actions
        = [Action.getAdmins 5, Action.reply noticeText 4 (some 9)]
      ∧ repliesOf (tag_all ⟨⟨"group", 5⟩, some "@mybot", ⟨some "fred", false⟩, 4, true, some 9⟩
          ⟨"mybot", [⟨⟨some "helper", true⟩⟩], fun _ => false⟩ none).actions = [noticeText]) :=
  ⟨Or.inl rfl, by decide, by decide, by decide, by decide,
    claim_C8 _ _ none "@mybot" (Or.inl rfl) rfl (by decide) (by decide) (by decide)
      (by decide) (fun j => rfl)⟩

/-- C9: exclusion of the bot's own handle from the candidate list is an
exact, case-sensitive comparison, while mention detection is invariant
under recasing of the message text. -/
theorem claim_C9 :
    (∀ (stored : List String) (bu u : String), u ∈ stored →
      lowerStr u = lowerStr bu → u ≠ bu → ("@" ++ u) ∈ candidateTags stored bu)
    ∧ (∀ (t t2 bu : String), lowerStr t = lowerStr t2 →
      mentionMatch t bu = mentionMatch t2 bu) := by
  constructor
  · intro stored bu u hmem _ hne
    apply List.mem_map.mpr
    exact ⟨u, List.mem_filter.mpr ⟨hmem, by simpa using hne⟩, rfl⟩
  · intro t t2 bu h
    unfold mentionMatch
    rw [h]

/-- Witness for C9: a stored handle differing from the bot handle only in
case is kept, and differently-cased texts agree on mention detection. -/
theorem claim_C9_witness :
    ("mybot" ∈ ["mybot"] ∧ lowerStr "mybot" = lowerStr "MyBot"
      ∧ ("mybot" : String) ≠ "MyBot"
      ∧ ("@" ++ "mybot") ∈ candidateTags ["mybot"] "MyBot")
    ∧ (lowerStr "hi @MYBOT" = lowerStr "hi @myBot"
      ∧ mentionMatch "hi @MYBOT" "MyBot" = mentionMatch "hi @myBot" "MyBot") :=
  ⟨⟨by decide, by decide, by decide,
      claim_C9.1 ["mybot"] "MyBot" "mybot" (by decide) (by decide) (by decide)⟩,
    ⟨by decide, claim_C9.2 "hi @MYBOT" "hi @myBot" "MyBot" (by decide)⟩⟩

/-- The mention response never changes the file state. -/
lemma tagMention_fileState (msg : Message) (env : Env) (fs : FileState) :
    (tagMention msg env fs).fileState = fs := by
  unfold tagMention
  cases htb : tryBody msg env fs with
  | ok acts => rfl
  | error e =>
    by_cases hfe : env.failAt e.1 = true
    · simp [hfe]
    · simp [hfe]

/-- The chunk loop emits replies and sleeps only, never a track. -/
lemma sendChunks_no_track (msg : Message) (env : Env) (c : Chat) (u : User) :
    ∀ (ps : List String) (k : Nat),
      (∀ acts, sendChunks msg env ps k = Except.ok acts → Action.track c u ∉ acts)
      ∧ (∀ e, sendChunks msg env ps k = Except.error e → Action.track c u ∉ e.2) := by
  intro ps
  induction ps with
  | nil =>
    intro k
    constructor
    · intro acts h
      rw [show sendChunks msg env [] k = Except.ok [] from rfl] at h
      simp only [Except.ok.injEq] at h
      subst h
      simp
    · intro e h
      rw [show sendChunks msg env [] k = Except.ok [] from rfl] at h
      simp at h
  | cons p rest ih =>
    intro k
    constructor
    · intro acts h
      rw [sendChunks] at h
      split at h
      · simp at h
      · cases hrec : sendChunks msg env rest (k + 1) with
        | ok acts2 =>
          rw [hrec] at h
          simp only [Except.ok.injEq] at h
          subst h
          intro hmem
          simp only [List.mem_cons] at hmem
          rcases hmem with h1 | h1 | h1
          · simp at h1
          · simp at h1
          · exact (ih (k + 1)).1 acts2 hrec h1
        | error e2 =>
          rw [hrec] at h
          simp at h
    · intro e h
      rw [sendChunks] at h
      split at h
      · simp only [Except.error.injEq] at h
        subst h
        simp
      · cases hrec : sendChunks msg env rest (k + 1) with
        | ok acts2 =>
          rw [hrec] at h
          simp at h
        | error e2 =>
          rw [hrec] at h
          simp only [Except.error.injEq] at h
          subst h
          intro hmem
          simp only [List.mem_cons] at hmem
          rcases hmem with h1 | h1 | h1
          · simp at h1
          · simp at h1
          · exact (ih (k + 1)).2 e2 hrec h1

/-- Sending a tag list never emits a track. -/
lemma sendTagList_no_track (msg : Message) (env : Env) (c : Chat) (u : User)
    (tagged : List String) (k : Nat) :
    (∀ acts, sendTagList msg env tagged k = Except.ok acts → Action.track c u ∉ acts)
    ∧ (∀ e, sendTagList msg env tagged k = Except.error e → Action.track c u ∉ e.2) := by
  simp only [sendTagList]
  split
  · exact sendChunks_no_track msg env c u (buildParts tagged) k
  · split
    · constructor
      · intro acts h
        simp at h
      · intro e h
        simp only [Except.error.injEq] at h
        subst h
        simp
    · constructor
      · intro acts h
        simp only [Except.ok.injEq] at h
        subst h
        simp
      · intro e h
        simp at h

/-- The try block of the mention response never emits a track. -/
lemma tryBody_no_track (msg : Message) (env : Env) (fs : FileState)
    (c : Chat) (u : User) :
    (∀ acts, tryBody msg env fs = Except.ok acts → Action.track c u ∉ acts)
    ∧ (∀ e, tryBody msg env fs = Except.error e → Action.track c u ∉ e.2) := by
  simp only [tryBody]
  split
  · split
    · constructor
      · intro acts h
        simp at h
      · intro e h
        simp only [Except.error.injEq] at h
        subst h
        simp
    · split
      · split
        · constructor
          · intro acts h
            simp at h
          · intro e h
            simp only [Except.error.injEq] at h
            subst h
            simp
        · constructor
          · intro acts h
            simp only [Except.ok.injEq] at h
            subst h
            simp
          · intro e h
            simp at h
      · cases hsend : sendTagList msg env (adminFallback env.admins env.bot_username) 1 with
        | ok acts2 =>
          constructor
          · intro acts h
            simp at h
            subst h
            intro hmem
            simp at hmem
            exact (sendTagList_no_track msg env c u _ 1).1 acts2 hsend hmem
          · intro e h
            simp at h
        | error e2 =>
          constructor
          · intro acts h
            simp at h
          · intro e h
            simp at h
            rw [Prod.ext_iff] at h
            obtain ⟨h1, h2⟩ := h
            intro hmem
            rw [← h2] at hmem
            simp at hmem
            exact (sendTagList_no_track msg env c u _ 1).2 e2 hsend hmem
  · cases hsend : sendTagList msg env
        (candidateTags (((loadReg fs).lookup (toString msg.chat.id)).getD [])
          env.bot_username) 0 with
    | ok acts2 =>
      constructor
      · intro acts h
        simp at h
        subst h
        intro hmem
        simp at hmem
        exact (sendTagList_no_track msg env c u _ 0).1 acts2 hsend hmem
      · intro e h
        simp at h
    | error e2 =>
      constructor
      · intro acts h
        simp at h
      · intro e h
        simp at h
        subst h
        exact (sendTagList_no_track msg env c u _ 0).2 e2 hsend

/-- Unfolding the mention response on a successful try block. -/
lemma tagMention_eq_ok (msg : Message) (env : Env) (fs : FileState)
    (acts : List Action) (h : tryBody msg env fs = Except.ok acts) :
    tagMention msg env fs = ⟨acts, fs, false⟩ := by
  unfold tagMention
  rw [h]

/-- Unfolding the mention response on a failing try block. -/
lemma tagMention_eq_err (msg : Message) (env : Env) (fs : FileState)
    (e : Nat × List Action) (h : tryBody msg env fs = Except.error e) :
    tagMention msg env fs =
      if env.failAt e.1 then ⟨e.2 ++ [Action.logError], fs, true⟩
      else ⟨e.2 ++ [Action.logError,
        Action.reply genericFailText msg.message_id (threadOf msg)], fs, false⟩ := by
  unfold tagMention
  rw [h]

/-- The mention response never emits a track. -/
lemma tagMention_no_track (msg : Message) (env : Env) (fs : FileState)
    (c : Chat) (u : User) : Action.track c u ∉ (tagMention msg env fs).actions := by
  cases htb : tryBody msg env fs with
  | ok acts =>
    rw [tagMention_eq_ok msg env fs acts htb]
    exact (tryBody_no_track msg env fs c u).1 acts htb
  | error e =>
    have he := (tryBody_no_track msg env fs c u).2 e htb
    rw [tagMention_eq_err msg env fs e htb]
    by_cases hfe : env.failAt e.1 = true
    · simpa [hfe] using he
    · simpa [hfe] using he

/-- C10: a message whose text contains the bot handle (case-insensitively)
never reaches the tracking operation: the registry file is unchanged and
no track is invoked, even when all tracking preconditions hold. -/
theorem claim_C10 (msg : Message) (env : Env) (fs : FileState) (t : String)
    (htext : msg.text = some t)
    (hmention : mentionMatch t env.bot_username = true) :
    (tag_all msg env fs).fileState = fs
    ∧ ∀ (c : Chat) (u : User), Action.track c u ∉ (tag_all msg env fs).actions := by
  have hmm : mentionMatch (msg.text.getD "") env.bot_username = true := by
    rw [htext]
    exact hmention
  simp only [tag_all]
  by_cases hguard : ((msg.chat.type == "group" || msg.chat.type == "supergroup")
      && pyTruthy msg.text) = true
  · rw [if_pos hguard, if_pos hmm]
    exact ⟨tagMention_fileState msg env fs,
      fun c u => tagMention_no_track msg env fs c u⟩
  · rw [if_neg hguard]
    exact ⟨rfl, by intro c u; simp⟩

/-- Witness for C10: a mention with all tracking preconditions satisfied
leaves the file unchanged and performs no track. -/
theorem claim_C10_witness :
    ((⟨⟨"group", 1⟩, some "@MYBOT", ⟨some "alice", false⟩, 2, false, none⟩ : Message).text
        = some "@MYBOT")
    ∧ mentionMatch "@MYBOT" envW.bot_username = true
    ∧ ((tag_all ⟨⟨"group", 1⟩, some "@MYBOT", ⟨some "alice", false⟩, 2, false, none⟩
          envW none).fileState = none
      ∧ ∀ (c : Chat) (u : User), Action.track c u
          ∉ (tag_all ⟨⟨"group", 1⟩, some "@MYBOT", ⟨some "alice", false⟩, 2, false, none⟩
              envW none).actions) :=
  ⟨rfl, by decide, claim_C10 _ envW none "@MYBOT" rfl (by decide)⟩

end TagBot
